import Mathlib

/-!
Verification of the JWS core of this repository (jws/jws.go, jws/signer.go,
cmd/jwx/jwk.go) against its natural-language specification.

Bytes are modelled as natural numbers below 256, byte strings as `List Nat`.
The Go sources call out to `encoding/base64` (RawURLEncoding), `bytes`,
`encoding/json` and the crypto primitives; the base64 codec and the byte
utilities are modelled concretely, JSON (un)marshalling and the cryptographic
primitives are abstracted as parameters, since the repository composes them
without inspecting their internals.
-/

namespace Jwx

/-- The byte value of the unpadded URL-safe base64 alphabet
(RFC 4648 paragraph 5) at index `n`, as used by Go's
`base64.RawURLEncoding`: A-Z, a-z, 0-9, then `-` and `_`. -/
def b64Char (n : Nat) : Nat :=
  if n < 26 then 65 + n
  else if n < 52 then 97 + (n - 26)
  else if n < 62 then 48 + (n - 52)
  else if n = 62 then 45
  else 95

/-- Inverse of the base64url alphabet: maps a byte back to its sextet,
`none` for bytes outside the alphabet (Go's decoder fails on those). -/
def b64CharInv (c : Nat) : Option Nat :=
  if 65 ≤ c ∧ c ≤ 90 then some (c - 65)
  else if 97 ≤ c ∧ c ≤ 122 then some (c - 97 + 26)
  else if 48 ≤ c ∧ c ≤ 57 then some (c - 48 + 52)
  else if c = 45 then some 62
  else if c = 95 then some 63
  else none

/-- Unpadded base64url encoding of a byte string
(`base64.RawURLEncoding.Encode`): groups of three bytes become four
alphabet bytes, a final group of one or two bytes becomes two or three. -/
def b64Encode : List Nat → List Nat
  | [] => []
  | [a] => [b64Char (a / 4), b64Char (a % 4 * 16)]
  | [a, b] => [b64Char (a / 4), b64Char (a % 4 * 16 + b / 16), b64Char (b % 16 * 4)]
  | a :: b :: c :: rest =>
      b64Char (a / 4) :: b64Char (a % 4 * 16 + b / 16) ::
      b64Char (b % 16 * 4 + c / 64) :: b64Char (c % 64) :: b64Encode rest

/-- Unpadded base64url decoding (`base64.RawURLEncoding.Decode`): fails on a
byte outside the alphabet or on a length congruent to 1 mod 4; like Go's
non-strict decoder it ignores the unused trailing bits of a final group. -/
def b64Decode : List Nat → Option (List Nat)
  | [] => some []
  | [_] => none
  | [c1, c2] =>
      match b64CharInv c1, b64CharInv c2 with
      | some s1, some s2 => some [s1 * 4 + s2 / 16]
      | _, _ => none
  | [c1, c2, c3] =>
      match b64CharInv c1, b64CharInv c2, b64CharInv c3 with
      | some s1, some s2, some s3 => some [s1 * 4 + s2 / 16, s2 % 16 * 16 + s3 / 4]
      | _, _, _ => none
  | c1 :: c2 :: c3 :: c4 :: rest =>
      match b64CharInv c1, b64CharInv c2, b64CharInv c3, b64CharInv c4 with
      | some s1, some s2, some s3, some s4 =>
          match b64Decode rest with
          | some tail => some ((s1 * 4 + s2 / 16) :: (s2 % 16 * 16 + s3 / 4) ::
              (s3 % 4 * 64 + s4) :: tail)
          | none => none
      | _, _, _, _ => none

theorem b64Char_ge_45 (n : Nat) : 45 ≤ b64Char n := by
  unfold b64Char
  split <;> [omega; split <;> [omega; split <;> [omega; split <;> omega]]]

theorem b64Char_le_122 (n : Nat) : b64Char n ≤ 122 := by
  unfold b64Char
  split
  · omega
  · split
    · omega
    · split
      · omega
      · split <;> omega

theorem b64Char_ne_dot (n : Nat) : b64Char n ≠ 46 := by
  unfold b64Char
  split
  · omega
  · split
    · omega
    · split
      · omega
      · split <;> omega

theorem b64CharInv_b64Char : ∀ n < 64, b64CharInv (b64Char n) = some n := by decide

theorem b64_roundtrip : ∀ (l : List Nat), (∀ b ∈ l, b < 256) →
    b64Decode (b64Encode l) = some l
  | [], _ => rfl
  | [a], h => by
    have ha : a < 256 := h a (by simp)
    have h1 : a / 4 < 64 := by omega
    have h2 : a % 4 * 16 < 64 := by omega
    simp only [b64Encode, b64Decode, b64CharInv_b64Char _ h1, b64CharInv_b64Char _ h2]
    congr 1
    congr 1
    omega
  | [a, b], h => by
    have ha : a < 256 := h a (by simp)
    have hb : b < 256 := h b (by simp)
    have h1 : a / 4 < 64 := by omega
    have h2 : a % 4 * 16 + b / 16 < 64 := by omega
    have h3 : b % 16 * 4 < 64 := by omega
    simp only [b64Encode, b64Decode, b64CharInv_b64Char _ h1, b64CharInv_b64Char _ h2,
      b64CharInv_b64Char _ h3]
    congr 1
    congr 1
    · omega
    · congr 1
      omega
  | a :: b :: c :: rest, h => by
    have ha : a < 256 := h a (by simp)
    have hb : b < 256 := h b (by simp)
    have hc : c < 256 := h c (by simp)
    have h1 : a / 4 < 64 := by omega
    have h2 : a % 4 * 16 + b / 16 < 64 := by omega
    have h3 : b % 16 * 4 + c / 64 < 64 := by omega
    have h4 : c % 64 < 64 := by omega
    have ih := b64_roundtrip rest (fun x hx => h x (by simp [hx]))
    simp only [b64Encode, b64Decode, b64CharInv_b64Char _ h1, b64CharInv_b64Char _ h2,
      b64CharInv_b64Char _ h3, b64CharInv_b64Char _ h4, ih]
    congr 1
    congr 1
    · omega
    · congr 1
      · omega
      · congr 1
        omega

theorem b64Encode_mem : ∀ (l : List Nat), ∀ x ∈ b64Encode l, ∃ n, x = b64Char n
  | [], x, hx => by simp [b64Encode] at hx
  | [a], x, hx => by
    simp only [b64Encode, List.mem_cons, List.mem_singleton, List.not_mem_nil, or_false] at hx
    rcases hx with h | h <;> exact ⟨_, h⟩
  | [a, b], x, hx => by
    simp only [b64Encode, List.mem_cons, List.not_mem_nil, or_false] at hx
    rcases hx with h | h | h <;> exact ⟨_, h⟩
  | a :: b :: c :: rest, x, hx => by
    simp only [b64Encode, List.mem_cons] at hx
    rcases hx with h | h | h | h | h
    · exact ⟨_, h⟩
    · exact ⟨_, h⟩
    · exact ⟨_, h⟩
    · exact ⟨_, h⟩
    · exact b64Encode_mem rest x h

theorem b64Encode_not_dot {l : List Nat} : 46 ∉ b64Encode l := by
  intro hmem
  obtain ⟨n, hn⟩ := b64Encode_mem l 46 hmem
  exact b64Char_ne_dot n hn.symm

theorem b64Encode_head (a : Nat) (t : List Nat) :
    (b64Encode (a :: t)).head? = some (b64Char (a / 4)) := by
  match t with
  | [] => rfl
  | [b] => rfl
  | b :: c :: r => rfl

/-- Whether `bytes.TrimSpace` treats the byte as white space; the inputs the
library handles are ASCII, for which Go uses the set space, tab, newline,
vertical tab, form feed, carriage return. -/
def isGoSpace (b : Nat) : Bool :=
  b == 9 || b == 10 || b == 11 || b == 12 || b == 13 || b == 32

/-- Model of `bytes.TrimSpace`: drop white space from both ends. -/
def trimSpace (l : List Nat) : List Nat :=
  ((l.dropWhile isGoSpace).reverse.dropWhile isGoSpace).reverse

theorem dropWhile_of_none {p : Nat → Bool} :
    ∀ {l : List Nat}, (∀ b ∈ l, p b = false) → l.dropWhile p = l
  | [], _ => rfl
  | a :: t, h => by
    simp [List.dropWhile_cons, h a (by simp)]

theorem trimSpace_of_no_space {l : List Nat} (h : ∀ b ∈ l, isGoSpace b = false) :
    trimSpace l = l := by
  unfold trimSpace
  rw [dropWhile_of_none h, dropWhile_of_none (fun b hb => h b (List.mem_reverse.1 hb)),
    List.reverse_reverse]

theorem isGoSpace_of_ge_45 {b : Nat} (h : 45 ≤ b) : isGoSpace b = false := by
  simp only [isGoSpace, Bool.or_eq_false_iff, beq_eq_false_iff_ne, ne_eq]
  omega

/-- Index of the first `.` byte (46), mirroring `bytes.IndexByte(data, '.')`
(which returns -1, modelled as `none`, when absent). -/
def idxOfDot : List Nat → Option Nat
  | [] => none
  | b :: rest => if b = 46 then some 0 else (idxOfDot rest).map (· + 1)

theorem idxOfDot_eq_none : ∀ {l : List Nat}, idxOfDot l = none ↔ 46 ∉ l
  | [] => by simp [idxOfDot]
  | b :: rest => by
    simp only [idxOfDot, List.mem_cons]
    by_cases hb : b = 46
    · simp [hb]
    · rw [if_neg hb, Option.map_eq_none', idxOfDot_eq_none]
      constructor
      · intro h hor
        rcases hor with h46 | hmem
        · exact hb h46.symm
        · exact h hmem
      · intro h hmem
        exact h (Or.inr hmem)

theorem idxOfDot_decomp : ∀ {l : List Nat} {i : Nat}, idxOfDot l = some i →
    l = l.take i ++ 46 :: l.drop (i + 1) ∧ 46 ∉ l.take i
  | [], i, h => by simp [idxOfDot] at h
  | b :: rest, i, h => by
    simp only [idxOfDot] at h
    by_cases hb : b = 46
    · rw [if_pos hb] at h
      cases h
      simp [hb]
    · rw [if_neg hb] at h
      rcases Option.map_eq_some'.1 h with ⟨j, hj, hji⟩
      obtain ⟨hdec, hmem⟩ := idxOfDot_decomp hj
      subst hji
      constructor
      · simpa [List.take_succ_cons, List.drop_succ_cons] using congrArg (b :: ·) hdec
      · simp only [List.take_succ_cons, List.mem_cons]
        intro hor
        rcases hor with h46 | hx
        · exact hb h46.symm
        · exact hmem hx

theorem idxOfDot_append_dot :
    ∀ {a : List Nat}, 46 ∉ a → ∀ (b : List Nat), idxOfDot (a ++ 46 :: b) = some a.length
  | [], _, b => by simp [idxOfDot]
  | x :: t, h, b => by
    have hx : x ≠ 46 := by
      intro hx
      exact h (by simp [hx])
    have ht : 46 ∉ t := fun hm => h (by simp [hm])
    simp [idxOfDot, hx, idxOfDot_append_dot ht b]

theorem count_of_idxOfDot_some {l : List Nat} {i : Nat} (h : idxOfDot l = some i) :
    l.count 46 = (l.drop (i + 1)).count 46 + 1 := by
  obtain ⟨hdec, hmem⟩ := idxOfDot_decomp h
  conv_lhs => rw [hdec]
  rw [List.count_append, List.count_cons]
  simp [List.count_eq_zero.2 hmem]

/-- The inner segment loop of `SplitCompact` (jws/jws.go lines 746-784) on
the bytes `sofar` delivered by ONE read: repeatedly find the next `.`; a
dot-free nonempty remainder is committed as a FINISHED segment exactly like
one terminated by a dot (`case -1: i = l`); each committed segment goes to
`protected`, `payload` or `signature` according to `state`, which advances
on every commit in states 0 and 1 (and not in state 2); each `.` found bumps
`periods`.  The loop always consumes `sofar` entirely, so all five registers
are returned for the next read and nothing else carries over.  The fuel
argument is a recursion bound; each iteration consumes at least one byte, so
`length + 1` units always suffice. -/
def scChunk : Nat → List Nat → Nat → List Nat → List Nat → List Nat → Nat →
    Nat × List Nat × List Nat × List Nat × Nat
  | 0, _, state, prot, pay, sig, periods => (state, prot, pay, sig, periods)
  | fuel + 1, sofar, state, prot, pay, sig, periods =>
    match idxOfDot sofar with
    | none =>
      match sofar with
      | [] => (state, prot, pay, sig, periods)
      | _ :: _ =>
        match state with
        | 0 => (1, sofar, pay, sig, periods)
        | 1 => (2, prot, sofar, sig, periods)
        | _ => (state, prot, pay, sofar, periods)
    | some i =>
      match state with
      | 0 => scChunk fuel (sofar.drop (i + 1)) 1 (sofar.take i) pay sig (periods + 1)
      | 1 => scChunk fuel (sofar.drop (i + 1)) 2 prot (sofar.take i) sig (periods + 1)
      | _ => scChunk fuel (sofar.drop (i + 1)) state prot pay (sofar.take i) (periods + 1)

/-- The successive reads `bytes.NewReader` serves to `SplitCompact`'s
4096-byte buffer (jws/jws.go lines 736-745): slices of up to 4096 bytes,
then EOF.  The fuel argument is a recursion bound; a nonempty list loses at
least one byte per chunk, so `l.length` units always suffice. -/
def readChunksAux : Nat → List Nat → List (List Nat)
  | _, [] => []
  | 0, x :: t => [x :: t]
  | fuel + 1, x :: t => (x :: t).take 4096 :: readChunksAux fuel ((x :: t).drop 4096)

def readChunks (l : List Nat) : List (List Nat) := readChunksAux l.length l

/-- The outer read loop of `SplitCompact` (jws/jws.go lines 739-785): each
read's bytes go through the inner segment loop, registers threading across
reads. -/
def scReadLoop : List (List Nat) → Nat → List Nat → List Nat → List Nat → Nat →
    List Nat × List Nat × List Nat × Nat
  | [], _, prot, pay, sig, periods => (prot, pay, sig, periods)
  | chunk :: rest, state, prot, pay, sig, periods =>
    let r := scChunk (chunk.length + 1) chunk state prot pay sig periods
    scReadLoop rest r.1 r.2.1 r.2.2.1 r.2.2.2.1 r.2.2.2.2

/-- `SplitCompact` (jws/jws.go lines 729-791): feed the reader's successive
4096-byte reads through the segment loop and reject unless exactly two `.`
bytes were seen in total.  The period count is independent of where the read
boundaries fall, but the segment registers are NOT: a dot-free chunk tail is
committed as a finished segment, so a segment straddling a read boundary is
split in two (the behavior claim C1's code bug exhibits). -/
def splitCompact (input : List Nat) : Option (List Nat × List Nat × List Nat) :=
  match scReadLoop (readChunks input) 0 [] [] [] 0 with
  | (prot, pay, sig, periods) => if periods = 2 then some (prot, pay, sig) else none

theorem idxOfDot_lt_length : ∀ {l : List Nat} {i : Nat}, idxOfDot l = some i → i < l.length
  | [], i, h => by simp [idxOfDot] at h
  | b :: rest, i, h => by
    simp only [idxOfDot] at h
    by_cases hb : b = 46
    · rw [if_pos hb] at h
      cases h
      simp
    · rw [if_neg hb] at h
      rcases Option.map_eq_some'.1 h with ⟨j, hj, hji⟩
      subst hji
      have := idxOfDot_lt_length hj
      simp only [List.length_cons]
      omega

theorem scChunk_periods : ∀ (fuel : Nat) (sofar : List Nat), sofar.length ≤ fuel →
    ∀ (state : Nat) (prot pay sig : List Nat) (periods : Nat),
    (scChunk fuel sofar state prot pay sig periods).2.2.2.2 = periods + sofar.count 46
  | 0, sofar, hle, state, prot, pay, sig, periods => by
    have : sofar = [] := List.length_eq_zero.1 (Nat.le_zero.1 hle)
    subst this
    rfl
  | fuel + 1, sofar, hle, state, prot, pay, sig, periods => by
    match hidx : idxOfDot sofar with
    | none =>
      have hnot : 46 ∉ sofar := idxOfDot_eq_none.1 hidx
      have hcount : sofar.count 46 = 0 := List.count_eq_zero.2 hnot
      match sofar, state with
      | [], _ => simp [scChunk, hidx, hcount]
      | _ :: _, 0 => simp [scChunk, hidx, hcount]
      | _ :: _, 1 => simp [scChunk, hidx, hcount]
      | _ :: _, n + 2 => simp [scChunk, hidx, hcount]
    | some i =>
      have hlt : i < sofar.length := idxOfDot_lt_length hidx
      have hrest : (sofar.drop (i + 1)).length ≤ fuel := by
        simp only [List.length_drop]
        omega
      have hcount := count_of_idxOfDot_some hidx
      match state with
      | 0 =>
        simp only [scChunk, hidx]
        rw [scChunk_periods fuel _ hrest]
        omega
      | 1 =>
        simp only [scChunk, hidx]
        rw [scChunk_periods fuel _ hrest]
        omega
      | n + 2 =>
        simp only [scChunk, hidx]
        rw [scChunk_periods fuel _ hrest]
        omega

theorem scReadLoop_periods : ∀ (chunks : List (List Nat)) (state : Nat)
    (prot pay sig : List Nat) (periods : Nat),
    (scReadLoop chunks state prot pay sig periods).2.2.2 =
      periods + (chunks.map (fun c => c.count 46)).sum
  | [], state, prot, pay, sig, periods => by simp [scReadLoop]
  | chunk :: rest, state, prot, pay, sig, periods => by
    have hch := scChunk_periods (chunk.length + 1) chunk (by omega) state prot pay sig periods
    rcases hres : scChunk (chunk.length + 1) chunk state prot pay sig periods with
      ⟨s', p', q', g', per'⟩
    rw [hres] at hch
    simp only at hch
    simp only [scReadLoop, hres]
    rw [scReadLoop_periods rest s' p' q' g' per']
    simp only [List.map_cons, List.sum_cons]
    omega

theorem readChunksAux_counts : ∀ (fuel : Nat) (l : List Nat),
    ((readChunksAux fuel l).map (fun c => c.count 46)).sum = l.count 46
  | fuel, [] => by cases fuel <;> simp [readChunksAux]
  | 0, x :: t => by simp [readChunksAux]
  | fuel + 1, x :: t => by
    rw [readChunksAux]
    simp only [List.map_cons, List.sum_cons, readChunksAux_counts fuel ((x :: t).drop 4096)]
    rw [← List.count_append, List.take_append_drop]

theorem splitCompact_isSome (input : List Nat) :
    (splitCompact input).isSome = true ↔ input.count 46 = 2 := by
  unfold splitCompact
  have hper := scReadLoop_periods (readChunks input) 0 [] [] [] 0
  have hcnt : ((readChunks input).map (fun c => c.count 46)).sum = input.count 46 :=
    readChunksAux_counts input.length input
  rw [hcnt] at hper
  rcases hres : scReadLoop (readChunks input) 0 [] [] [] 0 with ⟨p, q, s, periods⟩
  rw [hres] at hper
  simp only at hper
  by_cases h2 : periods = 2
  · simp [h2, ← hper]
    omega
  · simp [h2]
    omega

theorem take_length_append : ∀ (a b : List Nat), (a ++ b).take a.length = a
  | [], _ => rfl
  | x :: t, b => by simp [take_length_append t b]

theorem drop_length_succ_append : ∀ (a b : List Nat), (a ++ 46 :: b).drop (a.length + 1) = b
  | [], _ => rfl
  | x :: t, b => by
    simp [drop_length_succ_append t b]

theorem scChunk_three {a b c : List Nat} (ha : 46 ∉ a) (hb : 46 ∉ b) (hc : 46 ∉ c)
    (fuel : Nat) (hfuel : 3 ≤ fuel) :
    scChunk fuel (a ++ 46 :: (b ++ 46 :: c)) 0 [] [] [] 0 = (2, a, b, c, 2) := by
  match fuel, hfuel with
  | f + 3, _ =>
    have h1 : idxOfDot (a ++ 46 :: (b ++ 46 :: c)) = some a.length := idxOfDot_append_dot ha _
    have h2 : idxOfDot (b ++ 46 :: c) = some b.length := idxOfDot_append_dot hb _
    simp only [scChunk, h1, take_length_append, drop_length_succ_append, h2]
    match hc' : idxOfDot c with
    | some i =>
      exact absurd ((idxOfDot_decomp hc').1 ▸ (by simp) : 46 ∈ c) hc
    | none =>
      match c with
      | [] => simp [scChunk, idxOfDot]
      | x :: t => simp [scChunk, hc']

theorem readChunksAux_nil (fuel : Nat) : readChunksAux fuel [] = [] := by
  cases fuel <;> rfl

theorem readChunksAux_single : ∀ (fuel : Nat) {l : List Nat}, l ≠ [] → l.length ≤ 4096 →
    1 ≤ fuel → readChunksAux fuel l = [l]
  | 0, l, hne, hlen, hfuel => absurd hfuel (by omega)
  | fuel + 1, l, hne, hlen, _ => by
    rcases l with _ | ⟨x, t⟩
    · exact absurd rfl hne
    · rw [readChunksAux, List.take_of_length_le hlen, List.drop_of_length_le hlen,
        readChunksAux_nil]

theorem readChunks_single {l : List Nat} (hne : l ≠ []) (hlen : l.length ≤ 4096) :
    readChunks l = [l] := by
  unfold readChunks
  refine readChunksAux_single l.length hne hlen ?_
  rcases l with _ | ⟨x, t⟩
  · exact absurd rfl hne
  · simp

theorem readChunks_two {l : List Nat} (h1 : 4096 < l.length) (h2 : l.length ≤ 8192) :
    readChunks l = [l.take 4096, l.drop 4096] := by
  rcases l with _ | ⟨x, t⟩
  · simp at h1
  · show readChunksAux (t.length + 1) (x :: t) = _
    rw [readChunksAux]
    rw [readChunksAux_single t.length (l := (x :: t).drop 4096)
      (by
        rw [ne_eq, List.drop_eq_nil_iff]
        omega)
      (by
        rw [List.length_drop]
        omega)
      (by
        simp only [List.length_cons] at h1
        omega)]

/-- When the whole serialization fits in a single 4096-byte read, the split
recovers the three segments exactly. -/
theorem splitCompact_single_read {a b c : List Nat} (ha : 46 ∉ a) (hb : 46 ∉ b)
    (hc : 46 ∉ c) (hlen : (a ++ 46 :: (b ++ 46 :: c)).length ≤ 4096) :
    splitCompact (a ++ 46 :: (b ++ 46 :: c)) = some (a, b, c) := by
  unfold splitCompact
  rw [readChunks_single (by simp) hlen]
  simp only [scReadLoop]
  rw [scChunk_three ha hb hc _ (by simp +arith)]
  rfl

theorem scChunk_one_dot_from0 {x y : List Nat} (hx : 46 ∉ x) (hy : 46 ∉ y) (hyne : y ≠ [])
    (fuel : Nat) (hfuel : 2 ≤ fuel) (prot pay sig : List Nat) (periods : Nat) :
    scChunk fuel (x ++ 46 :: y) 0 prot pay sig periods = (2, x, y, sig, periods + 1) := by
  match fuel, hfuel with
  | f + 2, _ =>
    have h1 : idxOfDot (x ++ 46 :: y) = some x.length := idxOfDot_append_dot hx y
    have h2 : idxOfDot y = none := idxOfDot_eq_none.2 hy
    simp only [scChunk, h1, take_length_append, drop_length_succ_append]
    match y, hyne with
    | y0 :: yt, _ => simp [scChunk, h2]

theorem scChunk_one_dot_from2 {x y : List Nat} (hx : 46 ∉ x) (hy : 46 ∉ y) (hyne : y ≠ [])
    (fuel : Nat) (hfuel : 2 ≤ fuel) (prot pay sig : List Nat) (periods : Nat) :
    scChunk fuel (x ++ 46 :: y) 2 prot pay sig periods = (2, prot, pay, y, periods + 1) := by
  match fuel, hfuel with
  | f + 2, _ =>
    have h1 : idxOfDot (x ++ 46 :: y) = some x.length := idxOfDot_append_dot hx y
    have h2 : idxOfDot y = none := idxOfDot_eq_none.2 hy
    simp only [scChunk, h1, take_length_append, drop_length_succ_append]
    match y, hyne with
    | y0 :: yt, _ => simp [scChunk, h2]

/-- When the first read boundary falls inside the middle segment, the loop
commits the first read's tail as a finished payload segment: the split is
ACCEPTED (two periods) but returns the truncated payload `b.take (4095 - |a|)`
and, from the second read, the signature register ends at `c`. -/
theorem splitCompact_straddle {a b c : List Nat} (ha : 46 ∉ a) (hb : 46 ∉ b) (hc : 46 ∉ c)
    (hcne : c ≠ []) (halen : a.length + 1 ≤ 4095)
    (hblen : 4096 < a.length + 1 + b.length)
    (htot : (a ++ 46 :: (b ++ 46 :: c)).length ≤ 8192) :
    splitCompact (a ++ 46 :: (b ++ 46 :: c)) =
      some (a, b.take (4095 - a.length), c) := by
  have hTlen : (a ++ 46 :: (b ++ 46 :: c)).length = a.length + b.length + c.length + 2 := by
    simp only [List.length_append, List.length_cons]
    omega
  have hcutlt : 4095 - a.length < b.length := by omega
  have h4096 : 4096 < (a ++ 46 :: (b ++ 46 :: c)).length := by omega
  have hshape2 : a ++ 46 :: (b ++ 46 :: c) = (a ++ [46]) ++ (b ++ 46 :: c) := by simp
  have hplen : (a ++ [46]).length = a.length + 1 := by
    simp
  have htake : (a ++ 46 :: (b ++ 46 :: c)).take 4096 = a ++ 46 :: b.take (4095 - a.length) := by
    rw [hshape2, List.take_append_eq_append_take,
      List.take_of_length_le (by rw [hplen]; omega), hplen,
      show 4096 - (a.length + 1) = 4095 - a.length from by omega,
      List.take_append_eq_append_take,
      show 4095 - a.length - b.length = 0 from by omega, List.take_zero, List.append_nil]
    simp
  have hdrop : (a ++ 46 :: (b ++ 46 :: c)).drop 4096 =
      b.drop (4095 - a.length) ++ 46 :: c := by
    rw [hshape2, List.drop_append_eq_append_drop,
      List.drop_of_length_le (by rw [hplen]; omega), hplen,
      show 4096 - (a.length + 1) = 4095 - a.length from by omega,
      List.drop_append_eq_append_drop,
      show 4095 - a.length - b.length = 0 from by omega, List.drop_zero, List.nil_append]
  have htake46 : 46 ∉ b.take (4095 - a.length) := fun hm => hb (List.take_subset _ b hm)
  have hdrop46 : 46 ∉ b.drop (4095 - a.length) := fun hm => hb (List.drop_subset _ b hm)
  have htakene : b.take (4095 - a.length) ≠ [] := by
    intro h
    have hlen0 := congrArg List.length h
    simp only [List.length_take, List.length_nil] at hlen0
    omega
  have hc1 : scChunk ((a ++ 46 :: b.take (4095 - a.length)).length + 1)
      (a ++ 46 :: b.take (4095 - a.length)) 0 [] [] [] 0 =
      (2, a, b.take (4095 - a.length), [], 1) :=
    scChunk_one_dot_from0 ha htake46 htakene _
      (by simp only [List.length_append, List.length_cons]; omega) [] [] [] 0
  have hc2 : scChunk ((b.drop (4095 - a.length) ++ 46 :: c).length + 1)
      (b.drop (4095 - a.length) ++ 46 :: c) 2 a (b.take (4095 - a.length)) [] 1 =
      (2, a, b.take (4095 - a.length), c, 2) :=
    scChunk_one_dot_from2 hdrop46 hc hcne _
      (by simp only [List.length_append, List.length_cons]; omega) a
      (b.take (4095 - a.length)) [] 1
  have hloop : scReadLoop [a ++ 46 :: b.take (4095 - a.length),
      b.drop (4095 - a.length) ++ 46 :: c] 0 [] [] [] 0 =
      (a, b.take (4095 - a.length), c, 2) := by
    simp only [scReadLoop, hc1, hc2]
  unfold splitCompact
  rw [readChunks_two h4096 htot, htake, hdrop, hloop]
  rfl

/-- Outcome of a Go function: a value, a returned error, or a runtime panic
(which Go does not surface as an error value). -/
inductive GoResult (α : Type) where
  | ok (val : α)
  | err (msg : String)
  | panics
deriving DecidableEq

/-- The signature algorithm names for which the per-algorithm sign/verify
packages provide an implementation. -/
def knownSignatureAlgs : List String :=
  ["HS256", "HS384", "HS512", "RS256", "RS384", "RS512",
   "PS256", "PS384", "PS512", "ES256", "ES384", "ES512"]

/-- Modelled from the spec: `sign.New` (package jws/sign, not under src/)
builds the per-algorithm signer; an unknown algorithm name fails with an
UnsupportedAlgorithm error.  Only the success/failure of construction is
modelled; the signing primitive itself is a parameter of `goSign`. -/
def signNew (alg : String) : Except String Unit :=
  if alg ∈ knownSignatureAlgs then .ok () else .error "unsupported signature algorithm"

/-- Modelled from the spec: `verify.New` (package jws/verify, not under src/),
the verifier counterpart of `signNew`. -/
def verifyNew (alg : String) : Except String Unit :=
  if alg ∈ knownSignatureAlgs then .ok () else .error "unsupported signature algorithm"

/-- `jws.Sign` (jws/jws.go lines 353-407): create the signer, base64url-encode
the marshalled header and the payload, sign `b64(header) || '.' || b64(payload)`
with the per-algorithm primitive, and append `'.' || b64(signature)`.
`json.Marshal` of the header structure is abstracted as the `hdrbuf`
parameter and the per-algorithm primitive as `signFam` (indexed by the
algorithm the signer was built for). -/
def goSign (alg : String) (hdrbuf payload : List Nat)
    (signFam : String → List Nat → Except String (List Nat)) : Except String (List Nat) :=
  match signNew alg with
  | .error _ => .error "failed to create signer"
  | .ok _ =>
    let si := b64Encode hdrbuf ++ [46] ++ b64Encode payload
    match signFam alg si with
    | .error _ => .error "failed to sign payload"
    | .ok signature => .ok (si ++ [46] ++ b64Encode signature)

/-- The `EncodedSignature` struct of jws/jws.go (fields still in wire,
base64url form).  `protected` is a Lean keyword, hence `protectedHdr`. -/
structure EncodedSignatureS where
  protectedHdr : List Nat
  header : List Nat
  signature : List Nat
deriving DecidableEq

/-- The `EncodedMessage` struct of jws/jws.go; `payload` is the still-encoded
wire payload, `signatures` the (possibly absent, hence possibly empty)
`signatures` array. -/
structure EncodedMessageS where
  payload : List Nat
  signatures : List EncodedSignatureS
deriving DecidableEq

/-- The `FullEncodedMessage` struct of jws/jws.go: both embedded pointers, set
to `none` when `json.Unmarshal` saw none of the corresponding members. -/
structure FullEncodedMessageS where
  encodedSignature : Option EncodedSignatureS
  encodedMessage : Option EncodedMessageS
deriving DecidableEq

/-- The signature loop in the JSON branch of `jws.Verify` (lines 533-558):
for each entry, the verified bytes are the wire `protected`, one `.`, the
wire `payload`; a signature that fails to base64-decode or to verify is
skipped; on the first success the decoded payload is returned. -/
def goVerifyLoop (payload : List Nat) (sigs : List EncodedSignatureS)
    (verifier : List Nat → List Nat → Except String Unit) : GoResult (List Nat) :=
  match sigs with
  | [] => .err "could not verify with any of the signatures"
  | s :: rest =>
    match b64Decode s.signature with
    | none => goVerifyLoop payload rest verifier
    | some dsig =>
      match verifier (s.protectedHdr ++ [46] ++ payload) dsig with
      | .ok _ =>
        match b64Decode payload with
        | none => .err "message verified, failed to decode payload"
        | some dp => .ok dp
      | .error _ => goVerifyLoop payload rest verifier

/-- The JSON branch of `jws.Verify` (lines 511-559), after `json.Unmarshal`:
reject when the message part is absent; when the embedded flattened signature
is present, execute `msg.Signatures[0] = v.EncodedSignature` — which panics
with an index-out-of-range when the `signatures` array is empty — and then
try every signature entry. -/
def goVerifyJSON (v : FullEncodedMessageS)
    (verifier : List Nat → List Nat → Except String Unit) : GoResult (List Nat) :=
  match v.encodedMessage with
  | none => .err "invalid JWS message format"
  | some msg =>
    match v.encodedSignature with
    | some s =>
      match msg.signatures with
      | [] => .panics
      | _ :: _ => goVerifyLoop msg.payload (msg.signatures.set 0 s) verifier
    | none => goVerifyLoop msg.payload msg.signatures verifier

/-- `jws.Verify` (jws/jws.go lines 495-591): build the verifier for `alg`,
trim white space, dispatch on a leading `{` to the JSON branch (with
`json.Unmarshal` abstracted as `jsonDecode`), otherwise split the compact
form, verify `protected || '.' || payload` against the decoded signature and
return the decoded payload.  The per-algorithm verify primitive is the
`verifyFam` parameter (indexed by algorithm, closing over the caller's key). -/
def goVerify (buf : List Nat) (alg : String)
    (jsonDecode : List Nat → Except String FullEncodedMessageS)
    (verifyFam : String → List Nat → List Nat → Except String Unit) : GoResult (List Nat) :=
  match verifyNew alg with
  | .error _ => .err "failed to create verifier"
  | .ok _ =>
    let buf := trimSpace buf
    if buf = [] then .err "empty buffer"
    else if buf.head? = some 123 then
      match jsonDecode buf with
      | .error _ => .err "failed to unmarshal JWS message"
      | .ok v => goVerifyJSON v (verifyFam alg)
    else
      match splitCompact buf with
      | none => .err "failed extract from compact serialization format"
      | some (prot, pay, sig) =>
        match b64Decode sig with
        | none => .err "failed to decode signature"
        | some dsig =>
          match verifyFam alg (prot ++ [46] ++ pay) dsig with
          | .error _ => .err "failed to verify message"
          | .ok _ =>
            match b64Decode pay with
            | none => .err "message verified, failed to decode payload"
            | some dp => .ok dp

/-- The in-memory result of `parseCompact`: decoded payload, decoded
signature, and the wire protected-header bytes kept as `hdr.Source`. -/
structure CompactMessageS where
  payload : List Nat
  signature : List Nat
  protectedSource : List Nat
deriving DecidableEq

/-- `parseCompact` (jws/jws.go lines 794-839): split, base64url-decode the
three segments, JSON-decode the protected header (abstracted as `hdrDecode`),
and build a one-signature message. -/
def goParseCompact (input : List Nat) (hdrDecode : List Nat → Except String Unit) :
    Except String CompactMessageS :=
  match splitCompact input with
  | none => .error "invalid compact serialization format"
  | some (prot, pay, sig) =>
    match b64Decode prot with
    | none => .error "failed to decode headers"
    | some dh =>
      match hdrDecode dh with
      | .error _ => .error "failed to parse JOSE headers"
      | .ok _ =>
        match b64Decode pay with
        | none => .error "failed to decode payload"
        | some dp =>
          match b64Decode sig with
          | none => .error "failed to decode signature"
          | some ds => .ok ⟨dp, ds, prot⟩

/-- A decoded `Signature` struct as produced by `parseJSON`'s anonymous
overlay struct; only the members the post-decode logic looks at are kept. -/
structure SignatureS where
  protectedAlg : String
  signature : List Nat
deriving DecidableEq

/-- A decoded `Message` struct for `parseJSON`. -/
structure MessageS where
  payload : List Nat
  signatures : List SignatureS
deriving DecidableEq

/-- `parseJSON` (jws/jws.go lines 683-709) after `json.NewDecoder.Decode` has
filled the anonymous struct holding an optional `*Message` and an optional
`*Signature`: when the flattened `*Signature` is present, a non-empty
`signatures` array is the mixed-serialization error, otherwise the message is
normalized to a one-entry array.  Dereferencing the `*Message` while it is
nil (input JSON with neither `payload` nor `signatures`) is a panic.  The
final loop that defaults a missing `alg` to `none` mutates the loop copy of
each entry and therefore has no observable effect, so it is not modelled. -/
def goParseJSON (msg : Option MessageS) (sig : Option SignatureS) : GoResult MessageS :=
  match sig with
  | some s =>
    match msg with
    | none => .panics
    | some m =>
      if m.signatures.length ≠ 0 then
        .err "invalid message: mixed flattened/full json serialization"
      else .ok { m with signatures := [s] }
  | none =>
    match msg with
    | none => .panics
    | some m => .ok m

/-- A JWK as far as `VerifyWithJWK` consults it.  Modelled from the spec:
package jwk is not under src/; `Key.Alg` returns the optional `alg`
attribute (the empty string when absent, per the Go accessor convention the
call site converts with `jwa.SignatureAlgorithm(key.Alg())`), and
`Key.Materialize` either yields the raw key or fails. -/
structure JwkKeyS where
  alg : Option String
  materializes : Bool
deriving DecidableEq

/-- `jws.VerifyWithJWK` (jws/jws.go lines 605-621): materialize the key, then
delegate to `jws.Verify` with the algorithm taken from the JWK's `alg`
attribute — the protected header is never consulted.  The materialized key
value is folded into `verifyFam` as in `goVerify`. -/
def goVerifyWithJWK (buf : List Nat) (key : JwkKeyS)
    (jsonDecode : List Nat → Except String FullEncodedMessageS)
    (verifyFam : String → List Nat → List Nat → Except String Unit) : GoResult (List Nat) :=
  if key.materializes = false then .err "failed to materialize jwk.Key"
  else
    match goVerify buf (key.alg.getD "") jsonDecode verifyFam with
    | .ok p => .ok p
    | .err _ => .err "failed to verify message"
    | .panics => .panics

/-- The `oct` branch of `makeJwkGenerateCmd` (cmd/jwx/jwk.go):
`octets := make([]byte, c.Int("keysize"))` filled from the random source,
where the `keysize` flag carries `Value: 2048` as its default.  `randRead`
abstracts `rand.Reader.Read` filling the slice. -/
def jwkGenerateOct (keysize : Option Nat) (randRead : Nat → List Nat) : List Nat :=
  randRead (keysize.getD 2048)

/-- The error values of jws/signer.go: the named errors of the package
(declared outside src/, so identified by name) and inline `errors.New`
messages, which appear verbatim. -/
inductive SignerErr where
  | unsupportedAlgorithm
  | missingPrivateKey
  | missingPublicKey
  | invalidSignature
  | invalidEcdsaSignatureSize
  | goMsg (s : String)
deriving DecidableEq

/-- The NIST curves reachable through `ecdsa.GenerateKey` in this code base,
with `Curve.Params().BitSize`. -/
inductive CurveT where
  | P256
  | P384
  | P521
deriving DecidableEq

def CurveT.bitSize : CurveT → Nat
  | .P256 => 256
  | .P384 => 384
  | .P521 => 521

/-- An `ecdsa.PublicKey`: only the curve is inspected by the code under
verification (the point itself is consumed by the abstracted primitive). -/
structure EcdsaPublicKey where
  curve : CurveT
deriving DecidableEq

/-- An `ecdsa.PrivateKey`, which embeds its public key. -/
structure EcdsaPrivateKey where
  PublicKey : EcdsaPublicKey
deriving DecidableEq

/-- An `rsa.PublicKey`, abstracted to a tag; the modulus and exponent are
consumed only by the abstracted primitives. -/
structure RsaPublicKey where
  tag : Nat
deriving DecidableEq

/-- An `rsa.PrivateKey`, which embeds its public key. -/
structure RsaPrivateKey where
  PublicKey : RsaPublicKey
deriving DecidableEq

/-- The `RsaSign` struct (jws/signer.go); the JWK and KeyID fields play no
role in the claims under verification. -/
structure RsaSign where
  Algorithm : String
  PrivateKey : Option RsaPrivateKey
  PublicKey : Option RsaPublicKey
deriving DecidableEq

/-- The `EcdsaSign` struct (jws/signer.go). -/
structure EcdsaSign where
  Algorithm : String
  PrivateKey : Option EcdsaPrivateKey
  PublicKey : Option EcdsaPublicKey
deriving DecidableEq

/-- The `HmacSign` struct (jws/signer.go). -/
structure HmacSign where
  Algorithm : String
  Key : List Nat
deriving DecidableEq

/-- `NewRsaSign` (jws/signer.go lines 80-91): only the algorithm name is
validated; the key (a possibly-nil pointer) is stored untouched and the
`PublicKey` field is left unset. -/
def NewRsaSign (alg : String) (key : Option RsaPrivateKey) : Except SignerErr RsaSign :=
  if alg = "RS256" ∨ alg = "RS384" ∨ alg = "RS512" ∨
     alg = "PS256" ∨ alg = "PS384" ∨ alg = "PS512" then .ok ⟨alg, key, none⟩
  else .error .unsupportedAlgorithm

/-- `NewEcdsaSign` (jws/signer.go lines 181-193): only the algorithm name is
validated; the key's curve is never inspected here.  The source dereferences
`key.PublicKey`, so the key is taken non-nil. -/
def NewEcdsaSign (alg : String) (key : EcdsaPrivateKey) : Except SignerErr EcdsaSign :=
  if alg = "ES256" ∨ alg = "ES384" ∨ alg = "ES512" then
    .ok ⟨alg, some key, some key.PublicKey⟩
  else .error .unsupportedAlgorithm

/-- `NewHmacSign` (jws/signer.go lines 296-301): no validation whatsoever. -/
def NewHmacSign (alg : String) (key : List Nat) : Except SignerErr HmacSign :=
  .ok ⟨alg, key⟩

/-- `EcdsaSign.hash` (jws/signer.go lines 210-225), returned as
`crypto.Hash.Size()` in bytes: SHA-256/384/512 for ES256/384/512. -/
def ecdsaHashSize (alg : String) : Except SignerErr Nat :=
  if alg = "ES256" then .ok 32
  else if alg = "ES384" then .ok 48
  else if alg = "ES512" then .ok 64
  else .error .unsupportedAlgorithm

/-- `RsaSign.hash` (jws/signer.go lines 108-122); the digest itself is folded
into the abstracted primitives, so only its existence is kept. -/
def rsaHash (alg : String) : Except SignerErr Unit :=
  if alg = "RS256" ∨ alg = "PS256" then .ok ()
  else if alg = "RS384" ∨ alg = "PS384" then .ok ()
  else if alg = "RS512" ∨ alg = "PS512" then .ok ()
  else .error .unsupportedAlgorithm

/-- Minimal big-endian byte representation of a natural number, as
`math/big.Int.Bytes` produces (empty for zero).  The fuel argument is a
recursion bound; `n` units always suffice since the recursion halves at
least once per step. -/
def natBytesAux : Nat → Nat → List Nat
  | 0, _ => []
  | fuel + 1, n => if n = 0 then [] else natBytesAux fuel (n / 256) ++ [n % 256]

def natBytes (n : Nat) : List Nat := natBytesAux n n

/-- Zero-fill a field of `width` bytes from the right with `data`, as the
copy loop of `EcdsaSign.Sign` does (`copy(out[start+padlen:], data)` into a
zeroed buffer). -/
def padTo (width : Nat) (data : List Nat) : List Nat :=
  List.replicate (width - data.length) 0 ++ data

/-- Big-endian value of a byte string, as `big.Int.SetBytes`. -/
def natFromBytes (l : List Nat) : Nat := l.foldl (fun acc b => acc * 256 + b) 0

/-- `EcdsaSign.Sign` (jws/signer.go lines 229-263): resolve the digest,
require a private key, require the curve bit size to equal eight times the
digest size, then emit `R || S` with each value zero-padded to the digest
size.  The digest of the payload only feeds `ecdsa.Sign`, whose random
output pair is abstracted as the `r`, `sv` parameters. -/
def goEcdsaSign (s : EcdsaSign) (r sv : Nat) : Except SignerErr (List Nat) :=
  match ecdsaHashSize s.Algorithm with
  | .error e => .error e
  | .ok keysiz =>
    match s.PrivateKey with
    | none => .error (.goMsg "cannot proceed with Sign(): no private key available")
    | some k =>
      if k.PublicKey.curve.bitSize ≠ keysiz * 8 then
        .error (.goMsg "key size does not match curve bit size")
      else .ok (padTo keysiz (natBytes r) ++ padTo keysiz (natBytes sv))

/-- The tail of `EcdsaSign.Verify` (jws/signer.go lines 274-293) once a
public key is in hand: resolve the digest, require the signature to be
exactly twice the digest size, split it into `r` and `s`, and call
`ecdsa.Verify` (abstracted as `ev`, with the payload digest folded in). -/
def ecdsaVerifySized (alg : String) (pk : EcdsaPublicKey) (payload signature : List Nat)
    (ev : EcdsaPublicKey → List Nat → Nat → Nat → Bool) : Except SignerErr Unit :=
  match ecdsaHashSize alg with
  | .error _ => .error .unsupportedAlgorithm
  | .ok keysiz =>
    if signature.length ≠ 2 * keysiz then .error .invalidEcdsaSignatureSize
    else
      let rv := natFromBytes (signature.take keysiz)
      let sv := natFromBytes (signature.drop keysiz)
      if ev pk payload rv sv then .ok () else .error .invalidSignature

/-- `EcdsaSign.Verify` (jws/signer.go lines 265-294): fall back from a
missing public key to the private key's embedded public key, fail when both
are absent, then proceed with the sized check and the primitive. -/
def goEcdsaVerify (s : EcdsaSign) (payload signature : List Nat)
    (ev : EcdsaPublicKey → List Nat → Nat → Nat → Bool) : Except SignerErr Unit :=
  let pk? : Except SignerErr EcdsaPublicKey :=
    match s.PublicKey with
    | some pk => .ok pk
    | none =>
      match s.PrivateKey with
      | none => .error (.goMsg "cannot proceed with Verify(): no private/public key available")
      | some k => .ok k.PublicKey
  match pk? with
  | .error e => .error e
  | .ok pk => ecdsaVerifySized s.Algorithm pk payload signature ev

/-- The final algorithm switch of `RsaSign.Verify` (jws/signer.go lines
171-178), dispatching to `rsa.VerifyPKCS1v15` or `rsa.VerifyPSS` (abstracted
as the boolean primitives `pkcs1`/`pss`; their library error value is opaque
to this code). -/
def rsaVerifyDispatch (alg : String) (pk : RsaPublicKey) (payload signature : List Nat)
    (pkcs1 pss : RsaPublicKey → List Nat → List Nat → Bool) : Except SignerErr Unit :=
  if alg = "RS256" ∨ alg = "RS384" ∨ alg = "RS512" then
    if pkcs1 pk payload signature then .ok ()
    else .error (.goMsg "crypto/rsa: verification error")
  else if alg = "PS256" ∨ alg = "PS384" ∨ alg = "PS512" then
    if pss pk payload signature then .ok ()
    else .error (.goMsg "crypto/rsa: verification error")
  else .error .unsupportedAlgorithm

/-- `RsaSign.Verify` (jws/signer.go lines 154-179): resolve the digest first,
fall back from a missing public key to the private key's embedded public
key, fail when both are absent, then run the algorithm switch. -/
def goRsaVerify (s : RsaSign) (payload signature : List Nat)
    (pkcs1 pss : RsaPublicKey → List Nat → List Nat → Bool) : Except SignerErr Unit :=
  match rsaHash s.Algorithm with
  | .error _ => .error .unsupportedAlgorithm
  | .ok _ =>
    let pk? : Except SignerErr RsaPublicKey :=
      match s.PublicKey with
      | some pk => .ok pk
      | none =>
        match s.PrivateKey with
        | none => .error .missingPublicKey
        | some k => .ok k.PublicKey
    match pk? with
    | .error e => .error e
    | .ok pk => rsaVerifyDispatch s.Algorithm pk payload signature pkcs1 pss

/-- `HmacSign.Sign` (jws/signer.go lines 303-327): resolve the HMAC hash —
the only place the algorithm is checked — then MAC the payload (`mac`
abstracts HMAC-SHA2 over the stored key). -/
def goHmacSign (s : HmacSign) (payload : List Nat)
    (mac : String → List Nat → List Nat → List Nat) : Except SignerErr (List Nat) :=
  if s.Algorithm = "HS256" ∨ s.Algorithm = "HS384" ∨ s.Algorithm = "HS512" then
    .ok (mac s.Algorithm s.Key payload)
  else .error .unsupportedAlgorithm

/-- `HmacSign.Verify` (jws/signer.go lines 329-339): recompute and compare
(with `hmac.Equal`, i.e. plain equality of the byte strings). -/
def goHmacVerify (s : HmacSign) (payload given : List Nat)
    (mac : String → List Nat → List Nat → List Nat) : Except SignerErr Unit :=
  match goHmacSign s payload mac with
  | .error e => .error e
  | .ok expected => if given = expected then .ok () else .error .invalidSignature

/-- The bytes `MultiSign.MultiSign` (jws/signer.go lines 40-47) hands to each
signer: `ss := append(append(protbuf, '.'), encoded...)`, where `protbuf` is
the raw `json.Marshal` of the protected header (abstracted as a parameter)
and `encoded` is the base64url payload (`buffer.Base64Encode`, package
buffer, modelled from the spec as the unpadded RFC 4648 paragraph 5 codec). -/
def multiSignSigningInput (protbuf payload : List Nat) : List Nat :=
  protbuf ++ [46] ++ b64Encode payload

/-- The bytes `SignMulti` (jws/jws.go lines 449-457) hands to each signer:
the base64url protected header, one `.`, the base64url payload. -/
def signMultiSigningInput (hdrbuf payload : List Nat) : List Nat :=
  b64Encode hdrbuf ++ [46] ++ b64Encode payload

/-- Modelled from the spec: the signing input is
`ASCII(b64url(protected_header_json)) || '.' || ASCII(b64url(payload))`. -/
def specSigningInput (hdrbuf payload : List Nat) : List Nat :=
  b64Encode hdrbuf ++ [46] ++ b64Encode payload

theorem b64Encode_length : ∀ (l : List Nat), (b64Encode l).length = (4 * l.length + 2) / 3
  | [] => rfl
  | [_] => by simp [b64Encode]
  | [_, _] => by simp [b64Encode]
  | a :: b :: c :: rest => by
    simp only [b64Encode, List.length_cons, b64Encode_length rest]
    omega

/-- The three byte-level side conditions `goVerify` checks before splitting,
for any three-segment token of base64url alphabet bytes: trimming is the
identity, the token is nonempty, and it does not start with `{`. -/
theorem b64_token_facts (hdrbuf payload signature : List Nat) :
    trimSpace (b64Encode hdrbuf ++ 46 :: (b64Encode payload ++ 46 :: b64Encode signature))
      = b64Encode hdrbuf ++ 46 :: (b64Encode payload ++ 46 :: b64Encode signature)
    ∧ b64Encode hdrbuf ++ 46 :: (b64Encode payload ++ 46 :: b64Encode signature) ≠ []
    ∧ (b64Encode hdrbuf ++ 46 :: (b64Encode payload ++ 46 :: b64Encode signature)).head?
      ≠ some 123 := by
  refine ⟨?_, by simp, ?_⟩
  · apply trimSpace_of_no_space
    intro b hb
    apply isGoSpace_of_ge_45
    simp only [List.mem_append, List.mem_cons] at hb
    rcases hb with h | rfl | h | rfl | h
    · obtain ⟨n, rfl⟩ := b64Encode_mem _ b h
      exact b64Char_ge_45 n
    · omega
    · obtain ⟨n, rfl⟩ := b64Encode_mem _ b h
      exact b64Char_ge_45 n
    · omega
    · obtain ⟨n, rfl⟩ := b64Encode_mem _ b h
      exact b64Char_ge_45 n
  · match hdrbuf with
    | [] => simp [b64Encode]
    | a :: t =>
      rcases hE : b64Encode (a :: t) with _ | ⟨x, xs⟩
      · have hh := b64Encode_head a t
        rw [hE] at hh
        simp at hh
      · have hh := b64Encode_head a t
        rw [hE] at hh
        have hx : x = b64Char (a / 4) := by simpa using hh
        have hle := b64Char_le_122 (a / 4)
        simp only [List.cons_append, List.head?, ne_eq, Option.some.injEq]
        omega

/-- C1: Compact round-trip AND where it breaks.  First part: for every
payload whose serialized token fits in a single 4096-byte read, and every
valid (alg, key) pair — the algorithm known, the per-algorithm primitive
signing the input to a signature its verify counterpart accepts — `Verify`
of `Sign`'s output returns exactly the original payload.  Second part: the
claim is FALSE beyond one read.  When the first 4096-byte read boundary
falls inside the encoded payload (and the token fits in two reads),
`SplitCompact` commits the first read's dot-free tail as the finished
payload segment, so `Verify` checks the signature against a truncated
signing input; with any honest verifier — one that accepts only the bytes
that were signed — `Verify` fails instead of returning the payload. -/
theorem compact_roundtrip_read_boundary :
    (∀ (alg : String) (hdrbuf payload signature : List Nat)
      (signFam : String → List Nat → Except String (List Nat))
      (verifyFam : String → List Nat → List Nat → Except String Unit)
      (jsonDecode : List Nat → Except String FullEncodedMessageS),
      alg ∈ knownSignatureAlgs →
      (∀ b ∈ hdrbuf, b < 256) → (∀ b ∈ payload, b < 256) → (∀ b ∈ signature, b < 256) →
      signFam alg (b64Encode hdrbuf ++ [46] ++ b64Encode payload) = Except.ok signature →
      verifyFam alg (b64Encode hdrbuf ++ [46] ++ b64Encode payload) signature =
        Except.ok () →
      (b64Encode hdrbuf ++ [46] ++ b64Encode payload ++ [46] ++
        b64Encode signature).length ≤ 4096 →
      goSign alg hdrbuf payload signFam = Except.ok
        (b64Encode hdrbuf ++ [46] ++ b64Encode payload ++ [46] ++ b64Encode signature)
      ∧ goVerify (b64Encode hdrbuf ++ [46] ++ b64Encode payload ++ [46] ++
          b64Encode signature) alg jsonDecode verifyFam = GoResult.ok payload)
    ∧ (∀ (alg : String) (hdrbuf payload signature : List Nat)
      (signFam : String → List Nat → Except String (List Nat))
      (verifyFam : String → List Nat → List Nat → Except String Unit)
      (jsonDecode : List Nat → Except String FullEncodedMessageS),
      alg ∈ knownSignatureAlgs →
      (∀ b ∈ hdrbuf, b < 256) → (∀ b ∈ payload, b < 256) → (∀ b ∈ signature, b < 256) →
      signFam alg (b64Encode hdrbuf ++ [46] ++ b64Encode payload) = Except.ok signature →
      (∀ m s, verifyFam alg m s = Except.ok () →
        m = b64Encode hdrbuf ++ [46] ++ b64Encode payload) →
      b64Encode signature ≠ [] →
      (b64Encode hdrbuf).length + 1 ≤ 4095 →
      4096 < (b64Encode hdrbuf).length + 1 + (b64Encode payload).length →
      (b64Encode hdrbuf ++ [46] ++ b64Encode payload ++ [46] ++
        b64Encode signature).length ≤ 8192 →
      goSign alg hdrbuf payload signFam = Except.ok
        (b64Encode hdrbuf ++ [46] ++ b64Encode payload ++ [46] ++ b64Encode signature)
      ∧ goVerify (b64Encode hdrbuf ++ [46] ++ b64Encode payload ++ [46] ++
          b64Encode signature) alg jsonDecode verifyFam =
          GoResult.err "failed to verify message") := by
  constructor
  · intro alg hdrbuf payload signature signFam verifyFam jsonDecode
      halg hhdr hpay hsig hsign hverify hlen
    have hA_dot : (46 : Nat) ∉ b64Encode hdrbuf := b64Encode_not_dot
    have hB_dot : (46 : Nat) ∉ b64Encode payload := b64Encode_not_dot
    have hC_dot : (46 : Nat) ∉ b64Encode signature := b64Encode_not_dot
    have hshape : b64Encode hdrbuf ++ [46] ++ b64Encode payload ++ [46] ++ b64Encode signature
        = b64Encode hdrbuf ++ 46 :: (b64Encode payload ++ 46 :: b64Encode signature) := by
      simp
    have hsign' : signFam alg (b64Encode hdrbuf ++ 46 :: b64Encode payload) =
        Except.ok signature := by simpa using hsign
    have hverify' : verifyFam alg (b64Encode hdrbuf ++ 46 :: b64Encode payload) signature =
        Except.ok () := by simpa using hverify
    obtain ⟨htrim, hnil, hhead⟩ := b64_token_facts hdrbuf payload signature
    refine ⟨by simp [goSign, signNew, halg, hsign'], ?_⟩
    have hvnew : verifyNew alg = Except.ok () := by simp [verifyNew, halg]
    have hsplit : splitCompact
        (b64Encode hdrbuf ++ 46 :: (b64Encode payload ++ 46 :: b64Encode signature))
        = some (b64Encode hdrbuf, b64Encode payload, b64Encode signature) :=
      splitCompact_single_read hA_dot hB_dot hC_dot (by rw [← hshape]; exact hlen)
    have hCdec : b64Decode (b64Encode signature) = some signature := b64_roundtrip _ hsig
    have hBdec : b64Decode (b64Encode payload) = some payload := b64_roundtrip _ hpay
    rw [hshape]
    simp only [goVerify, hvnew, htrim, if_neg hnil, if_neg hhead, hsplit, hCdec, hBdec,
      List.singleton_append, List.append_assoc, List.cons_append, List.nil_append, hverify']
  · intro alg hdrbuf payload signature signFam verifyFam jsonDecode
      halg hhdr hpay hsig hsign hhonest hCne hAlen hstrad htot
    have hA_dot : (46 : Nat) ∉ b64Encode hdrbuf := b64Encode_not_dot
    have hB_dot : (46 : Nat) ∉ b64Encode payload := b64Encode_not_dot
    have hC_dot : (46 : Nat) ∉ b64Encode signature := b64Encode_not_dot
    have hshape : b64Encode hdrbuf ++ [46] ++ b64Encode payload ++ [46] ++ b64Encode signature
        = b64Encode hdrbuf ++ 46 :: (b64Encode payload ++ 46 :: b64Encode signature) := by
      simp
    have hsign' : signFam alg (b64Encode hdrbuf ++ 46 :: b64Encode payload) =
        Except.ok signature := by simpa using hsign
    obtain ⟨htrim, hnil, hhead⟩ := b64_token_facts hdrbuf payload signature
    refine ⟨by simp [goSign, signNew, halg, hsign'], ?_⟩
    have hvnew : verifyNew alg = Except.ok () := by simp [verifyNew, halg]
    have hsplit : splitCompact
        (b64Encode hdrbuf ++ 46 :: (b64Encode payload ++ 46 :: b64Encode signature))
        = some (b64Encode hdrbuf,
            (b64Encode payload).take (4095 - (b64Encode hdrbuf).length),
            b64Encode signature) :=
      splitCompact_straddle hA_dot hB_dot hC_dot hCne hAlen hstrad
        (by rw [← hshape]; exact htot)
    have hCdec : b64Decode (b64Encode signature) = some signature := b64_roundtrip _ hsig
    have hvfail : ∀ u, verifyFam alg (b64Encode hdrbuf ++
        46 :: (b64Encode payload).take (4095 - (b64Encode hdrbuf).length)) signature ≠
        Except.ok u := by
      intro u hvok
      cases u
      have heq := hhonest _ _ hvok
      rw [List.append_assoc, List.singleton_append] at heq
      have heq2 := List.append_cancel_left heq
      have heq3 : (b64Encode payload).take (4095 - (b64Encode hdrbuf).length) =
          b64Encode payload := by
        injection heq2
      have hlen3 := congrArg List.length heq3
      simp only [List.length_take] at hlen3
      omega
    rw [hshape]
    rcases hres : verifyFam alg (b64Encode hdrbuf ++
        46 :: (b64Encode payload).take (4095 - (b64Encode hdrbuf).length)) signature with
      e | u
    · simp only [goVerify, hvnew, htrim, if_neg hnil, if_neg hhead, hsplit, hCdec,
        List.singleton_append, List.append_assoc, List.cons_append, List.nil_append, hres]
    · exact absurd hres (hvfail u)

/-- Witness for C1 at concrete inputs: a short token that round-trips, and a
token whose encoded payload (4094 bytes of base64 for a 3070-byte payload)
straddles the 4096-byte read boundary, on which verification fails. -/
theorem compact_roundtrip_read_boundary_witness :
    (goSign "HS256" [123, 125] [104, 105] (fun _ _ => Except.ok [1, 2]) =
      Except.ok (b64Encode [123, 125] ++ [46] ++ b64Encode [104, 105] ++ [46] ++
        b64Encode [1, 2])
    ∧ goVerify (b64Encode [123, 125] ++ [46] ++ b64Encode [104, 105] ++ [46] ++
        b64Encode [1, 2]) "HS256" (fun _ => Except.error "x") (fun _ _ _ => Except.ok ()) =
        GoResult.ok [104, 105])
    ∧ (goSign "HS256" [123, 125] (List.replicate 3070 104) (fun _ _ => Except.ok [1]) =
      Except.ok (b64Encode [123, 125] ++ [46] ++ b64Encode (List.replicate 3070 104) ++
        [46] ++ b64Encode [1])
    ∧ goVerify (b64Encode [123, 125] ++ [46] ++ b64Encode (List.replicate 3070 104) ++
        [46] ++ b64Encode [1]) "HS256" (fun _ => Except.error "x")
        (fun _ m _ => if m = b64Encode [123, 125] ++ [46] ++
            b64Encode (List.replicate 3070 104)
          then Except.ok () else Except.error "invalid signature") =
        GoResult.err "failed to verify message") :=
  ⟨compact_roundtrip_read_boundary.1 "HS256" [123, 125] [104, 105] [1, 2]
    (fun _ _ => Except.ok [1, 2]) (fun _ _ _ => Except.ok ()) (fun _ => Except.error "x")
    (by decide) (by decide) (by decide) (by decide) rfl rfl (by decide),
   compact_roundtrip_read_boundary.2 "HS256" [123, 125] (List.replicate 3070 104) [1]
    (fun _ _ => Except.ok [1])
    (fun _ m _ => if m = b64Encode [123, 125] ++ [46] ++
        b64Encode (List.replicate 3070 104)
      then Except.ok () else Except.error "invalid signature")
    (fun _ => Except.error "x")
    (by decide) (by decide)
    (fun b hb => by
      rw [List.eq_of_mem_replicate hb]
      omega)
    (by decide) rfl
    (fun m s h => by
      have h' : (if m = b64Encode [123, 125] ++ [46] ++ b64Encode (List.replicate 3070 104)
          then Except.ok () else (Except.error "invalid signature" : Except String Unit)) =
          Except.ok () := h
      by_cases hm : m = b64Encode [123, 125] ++ [46] ++ b64Encode (List.replicate 3070 104)
      · exact hm
      · rw [if_neg hm] at h'
        exact absurd h' (by simp))
    (by decide)
    (by rw [b64Encode_length]; decide)
    (by
      rw [b64Encode_length, b64Encode_length, List.length_replicate]
      decide)
    (by
      simp only [List.length_append, b64Encode_length, List.length_replicate,
        List.length_cons, List.length_nil]
      omega)⟩

theorem head?_append_some {l m : List Nat} {c : Nat} (h : l.head? = some c) :
    (l ++ m).head? = some c := by
  cases l with
  | nil => simp at h
  | cons a t => simpa using h

/-- C2: Signing input.  The single-signer `Sign` and the multi-signer
`SignMulti` of jws/jws.go feed the primitive exactly
`b64url(header) || '.' || b64url(payload)`, but `MultiSign.MultiSign` of
jws/signer.go feeds it the RAW marshalled header JSON followed by
`'.' || b64url(payload)`: whenever the marshalled header starts with `{`
(as every JSON object does), its signing input differs from the specified
one. -/
theorem multisign_raw_header_signing_input :
    (∀ hdrbuf payload, signMultiSigningInput hdrbuf payload = specSigningInput hdrbuf payload)
    ∧ ∀ protbuf payload, protbuf.head? = some 123 →
      multiSignSigningInput protbuf payload ≠ specSigningInput protbuf payload := by
  refine ⟨fun _ _ => rfl, ?_⟩
  intro protbuf payload hhead heq
  cases protbuf with
  | nil => simp at hhead
  | cons a t =>
    have ha : a = 123 := by simpa using hhead
    subst ha
    have h1 := congrArg List.head? heq
    have h2 : (specSigningInput (123 :: t) payload).head? = some (b64Char (123 / 4)) :=
      head?_append_some (head?_append_some (b64Encode_head 123 t))
    rw [h2] at h1
    simp [multiSignSigningInput, b64Char] at h1

/-- Witness for C2 at a concrete input: the header bytes of an empty JSON
object and a two-byte payload. -/
theorem multisign_raw_header_signing_input_witness :
    multiSignSigningInput [123, 125] [104, 105] ≠ specSigningInput [123, 125] [104, 105] :=
  multisign_raw_header_signing_input.2 [123, 125] [104, 105] rfl

/-- C3, counterexample: constructing an ECDSA signer with ES256 and a P-384
private key SUCCEEDS (the curve is never inspected at construction), and
constructing an HMAC signer with the non-HMAC name RS256 also succeeds. -/
theorem signer_construction_counterexample :
    NewEcdsaSign "ES256" ⟨⟨CurveT.P384⟩⟩ =
      Except.ok ⟨"ES256", some ⟨⟨CurveT.P384⟩⟩, some ⟨CurveT.P384⟩⟩
    ∧ NewHmacSign "RS256" [0] = Except.ok ⟨"RS256", [0]⟩ :=
  ⟨rfl, rfl⟩

/-- C3, amended: construction validates only the algorithm name for the RSA
and ECDSA signers (UnsupportedAlgorithm otherwise) and never the key; the
ES256-with-P-384 mismatch is rejected only at the first Sign call, with the
key-size error; HMAC construction never fails, and a non-HMAC algorithm is
rejected only at the first Sign (or Verify) call. -/
theorem signer_construction_amended :
    (∀ alg key, (∃ s, NewEcdsaSign alg key = Except.ok s) ↔
      alg = "ES256" ∨ alg = "ES384" ∨ alg = "ES512")
    ∧ (∀ alg key, (∃ s, NewRsaSign alg key = Except.ok s) ↔
      alg = "RS256" ∨ alg = "RS384" ∨ alg = "RS512" ∨
      alg = "PS256" ∨ alg = "PS384" ∨ alg = "PS512")
    ∧ (∀ (key : EcdsaPrivateKey) (sgn : EcdsaSign) (r sv : Nat),
      key.PublicKey.curve = CurveT.P384 → NewEcdsaSign "ES256" key = Except.ok sgn →
      goEcdsaSign sgn r sv =
        Except.error (SignerErr.goMsg "key size does not match curve bit size"))
    ∧ (∀ alg key, ∃ s, NewHmacSign alg key = Except.ok s)
    ∧ (∀ (s : HmacSign) payload mac,
      ¬(s.Algorithm = "HS256" ∨ s.Algorithm = "HS384" ∨ s.Algorithm = "HS512") →
      goHmacSign s payload mac = Except.error SignerErr.unsupportedAlgorithm) := by
  refine ⟨?_, ?_, ?_, ?_, ?_⟩
  · intro alg key
    constructor
    · rintro ⟨s, hs⟩
      by_contra hno
      simp [NewEcdsaSign, hno] at hs
    · intro h
      exact ⟨_, if_pos h⟩
  · intro alg key
    constructor
    · rintro ⟨s, hs⟩
      by_contra hno
      simp [NewRsaSign, hno] at hs
    · intro h
      exact ⟨_, if_pos h⟩
  · intro key sgn r sv hcrv hok
    have hsgn : sgn = ⟨"ES256", some key, some key.PublicKey⟩ := by
      simp [NewEcdsaSign] at hok
      exact hok.symm
    subst hsgn
    simp [goEcdsaSign, ecdsaHashSize, hcrv, CurveT.bitSize]
  · intro alg key
    exact ⟨_, rfl⟩
  · intro s payload mac h
    simp [goHmacSign, h]

/-- Witness for C3's amended statement at concrete inputs: the ES256/P-384
signer errors at Sign, and the HMAC signer built with a bad name errors at
Sign. -/
theorem signer_construction_amended_witness :
    goEcdsaSign ⟨"ES256", some ⟨⟨CurveT.P384⟩⟩, some ⟨CurveT.P384⟩⟩ 1 1 =
      Except.error (SignerErr.goMsg "key size does not match curve bit size")
    ∧ goHmacSign ⟨"FooBar", []⟩ [1] (fun _ _ _ => []) =
      Except.error SignerErr.unsupportedAlgorithm :=
  ⟨signer_construction_amended.2.2.1 ⟨⟨CurveT.P384⟩⟩ _ 1 1 rfl rfl,
   signer_construction_amended.2.2.2.2 ⟨"FooBar", []⟩ [1] (fun _ _ _ => []) (by decide)⟩

set_option maxRecDepth 4000 in
/-- C4: ECDSA widths are computed from the DIGEST size, not the curve size.
With the spec-sanctioned pairing ES512/P-521, Sign always fails (521 is not
8 times the SHA-512 size 64) and Verify rejects the 132-byte signature the
claim mandates (2 * ceil(521/8) = 132) with InvalidSignatureSize, because it
compares against 2 * 64 = 128. -/
theorem es512_p521_fixed_width_bug :
    (∀ r sv, goEcdsaSign ⟨"ES512", some ⟨⟨CurveT.P521⟩⟩, some ⟨CurveT.P521⟩⟩ r sv =
      Except.error (SignerErr.goMsg "key size does not match curve bit size"))
    ∧ goEcdsaVerify ⟨"ES512", some ⟨⟨CurveT.P521⟩⟩, some ⟨CurveT.P521⟩⟩ []
        (List.replicate 132 0) (fun _ _ _ _ => true) =
      Except.error SignerErr.invalidEcdsaSignatureSize
    ∧ 2 * ((CurveT.bitSize CurveT.P521 + 7) / 8) = 132 :=
  ⟨fun _ _ => rfl, rfl, rfl⟩

/-- C5: compact parsing accepts exactly the inputs with two `.` bytes, and on
any other count `parseCompact` fails with the malformed-compact error before
producing anything. -/
theorem compact_exactly_two_dots (input : List Nat) :
    ((splitCompact input).isSome = true ↔ input.count 46 = 2)
    ∧ (input.count 46 ≠ 2 → ∀ hdrDecode,
      goParseCompact input hdrDecode =
        Except.error "invalid compact serialization format") := by
  refine ⟨splitCompact_isSome input, ?_⟩
  intro hne hdrDecode
  have hnone : splitCompact input = none := by
    rcases hs : splitCompact input with _ | v
    · rfl
    · exact absurd ((splitCompact_isSome input).1 (by simp [hs])) hne
  simp [goParseCompact, hnone]

/-- Witness for C5 at a concrete input with zero dots. -/
theorem compact_exactly_two_dots_witness :
    goParseCompact [97] (fun _ => Except.ok ()) =
      Except.error "invalid compact serialization format" :=
  (compact_exactly_two_dots [97]).2 (by decide) _

/-- C6: on input carrying both a top-level `signature` and a non-empty
`signatures` array, `parseJSON` fails with the mixed-serialization error,
but the JSON branch of `Verify` does NOT: it overwrites the first array
entry with the top-level signature and verifies it — here successfully,
returning the payload. -/
theorem mixed_serialization_verify_accepts :
    goParseJSON (some ⟨[104, 105], [⟨"HS256", [1]⟩]⟩) (some ⟨"HS256", [2]⟩) =
      GoResult.err "invalid message: mixed flattened/full json serialization"
    ∧ goVerifyJSON ⟨some ⟨b64Encode [123, 125], [], b64Encode [9]⟩,
        some ⟨b64Encode [104, 105], [⟨b64Encode [123, 125], [], b64Encode [7]⟩]⟩⟩
        (fun _ _ => Except.ok ()) = GoResult.ok [104, 105] :=
  ⟨rfl, rfl⟩

/-- C7: `parseJSON` normalizes a flattened message into a one-entry
`signatures` array, but the JSON branch of `Verify` executes
`msg.Signatures[0] = v.EncodedSignature` on the empty array and panics with
an index-out-of-range instead of proceeding. -/
theorem flattened_normalization_panic :
    goParseJSON (some ⟨[104, 105], []⟩) (some ⟨"HS256", [2]⟩) =
      GoResult.ok ⟨[104, 105], [⟨"HS256", [2]⟩]⟩
    ∧ goVerifyJSON ⟨some ⟨b64Encode [123, 125], [], b64Encode [9]⟩,
        some ⟨b64Encode [104, 105], []⟩⟩ (fun _ _ => Except.ok ()) = GoResult.panics :=
  ⟨rfl, rfl⟩

/-- C8, counterexample: a compact token whose protected header is the JSON
`{"alg":"HS256"}` verifies under the header's algorithm, yet
`VerifyWithJWK` with a JWK carrying no `alg` attribute fails — it passes the
JWK's (empty) algorithm to `Verify` instead of falling back to the header. -/
theorem verify_with_jwk_no_fallback_counterexample :
    goVerifyWithJWK (b64Encode [123, 34, 97, 108, 103, 34, 58, 34, 72, 83, 50, 53, 54, 34, 125]
        ++ [46] ++ b64Encode [104, 105] ++ [46] ++ b64Encode [1]) ⟨none, true⟩
        (fun _ => Except.error "x") (fun _ _ _ => Except.ok ()) =
      GoResult.err "failed to verify message"
    ∧ goVerify (b64Encode [123, 34, 97, 108, 103, 34, 58, 34, 72, 83, 50, 53, 54, 34, 125]
        ++ [46] ++ b64Encode [104, 105] ++ [46] ++ b64Encode [1]) "HS256"
        (fun _ => Except.error "x") (fun _ _ _ => Except.ok ()) = GoResult.ok [104, 105] :=
  ⟨rfl, rfl⟩

/-- C8, amended: `VerifyWithJWK` takes the verification algorithm solely
from the JWK's `alg` attribute; when the attribute is absent the empty
algorithm name is passed to `Verify`, which always fails at verifier
construction — no fallback to the protected header's `alg` occurs. -/
theorem verify_with_jwk_alg_selection :
    (∀ buf jsonDecode verifyFam (key : JwkKeyS), key.materializes = true → key.alg = none →
      goVerifyWithJWK buf key jsonDecode verifyFam = GoResult.err "failed to verify message")
    ∧ (∀ buf jsonDecode verifyFam (key : JwkKeyS) (a : String) (p : List Nat),
      key.materializes = true → key.alg = some a →
      (goVerifyWithJWK buf key jsonDecode verifyFam = GoResult.ok p ↔
        goVerify buf a jsonDecode verifyFam = GoResult.ok p)) := by
  constructor
  · intro buf jd vf key hm ha
    have h2 : goVerify buf "" jd vf = GoResult.err "failed to create verifier" := rfl
    simp [goVerifyWithJWK, hm, ha, h2]
  · intro buf jd vf key a p hm ha
    simp only [goVerifyWithJWK, hm, ha, Option.getD_some]
    rw [if_neg (by simp)]
    cases hv : goVerify buf a jd vf with
    | ok v => simp
    | err e => simp
    | panics => simp

/-- Witness for C8's amended statement: a JWK without `alg` fails on any
buffer. -/
theorem verify_with_jwk_alg_selection_witness :
    goVerifyWithJWK [97] ⟨none, true⟩ (fun _ => Except.error "x")
      (fun _ _ _ => Except.ok ()) = GoResult.err "failed to verify message" :=
  verify_with_jwk_alg_selection.1 [97] (fun _ => Except.error "x")
    (fun _ _ _ => Except.ok ()) ⟨none, true⟩ rfl rfl

/-- C9, counterexample: with no keysize given, the `oct` generator draws
2048 random BYTES (the flag's default value used directly as a byte count),
not the 256 bytes (2048 bits) the claim states. -/
theorem oct_default_counterexample :
    (jwkGenerateOct none (fun n => List.replicate n 0)).length = 2048
    ∧ (2048 : Nat) ≠ 256 := by
  constructor
  · exact List.length_replicate 2048 0
  · decide

/-- C9, amended: the `oct` generator produces `keysize` random bytes, where
the default when no size is given is 2048 bytes (16384 bits). -/
theorem oct_keysize_is_bytes (keysize : Option Nat) (randRead : Nat → List Nat)
    (h : ∀ n, (randRead n).length = n) :
    (jwkGenerateOct keysize randRead).length = keysize.getD 2048
    ∧ (jwkGenerateOct none randRead).length = 2048 := by
  simp [jwkGenerateOct, h]

/-- Witness for C9's amended statement at concrete sizes. -/
theorem oct_keysize_is_bytes_witness :
    (jwkGenerateOct (some 16) (fun n => List.replicate n 1)).length = (some 16).getD 2048
    ∧ (jwkGenerateOct none (fun n => List.replicate n 1)).length = 2048 :=
  oct_keysize_is_bytes (some 16) (fun n => List.replicate n 1) (fun n => by simp)

theorem rsaVerifyDispatch_ne_missing (alg : String) (pk : RsaPublicKey)
    (payload signature : List Nat) (pkcs1 pss : RsaPublicKey → List Nat → List Nat → Bool) :
    rsaVerifyDispatch alg pk payload signature pkcs1 pss ≠
      Except.error SignerErr.missingPublicKey := by
  unfold rsaVerifyDispatch
  split_ifs <;> simp

theorem ecdsaVerifySized_ne_goMsg (alg : String) (pk : EcdsaPublicKey)
    (payload signature : List Nat) (ev : EcdsaPublicKey → List Nat → Nat → Nat → Bool)
    (m : String) :
    ecdsaVerifySized alg pk payload signature ev ≠ Except.error (SignerErr.goMsg m) := by
  unfold ecdsaVerifySized
  rcases ecdsaHashSize alg with e | keysiz
  · simp
  · simp only []
    split_ifs <;> simp

/-- C10: for the RSA and ECDSA verifiers, a missing public key falls back to
the public key embedded in the stored private key, and the missing-key error
surfaces only when both keys are absent. -/
theorem verify_public_key_fallback :
    (∀ (s : RsaSign) (k : RsaPrivateKey) (payload signature : List Nat) pkcs1 pss,
      s.PublicKey = none → s.PrivateKey = some k →
      goRsaVerify s payload signature pkcs1 pss =
        goRsaVerify { s with PublicKey := some k.PublicKey } payload signature pkcs1 pss)
    ∧ (∀ (s : RsaSign) (payload signature : List Nat) pkcs1 pss,
      goRsaVerify s payload signature pkcs1 pss = Except.error SignerErr.missingPublicKey →
      s.PublicKey = none ∧ s.PrivateKey = none)
    ∧ (∀ (s : EcdsaSign) (k : EcdsaPrivateKey) (payload signature : List Nat) ev,
      s.PublicKey = none → s.PrivateKey = some k →
      goEcdsaVerify s payload signature ev =
        goEcdsaVerify { s with PublicKey := some k.PublicKey } payload signature ev)
    ∧ (∀ (s : EcdsaSign) (payload signature : List Nat) ev,
      goEcdsaVerify s payload signature ev = Except.error (SignerErr.goMsg
        "cannot proceed with Verify(): no private/public key available") ↔
      s.PublicKey = none ∧ s.PrivateKey = none) := by
  refine ⟨?_, ?_, ?_, ?_⟩
  · intro s k payload signature pkcs1 pss hpub hpriv
    obtain ⟨A, P, Q⟩ := s
    simp only at hpub hpriv
    subst hpub hpriv
    rfl
  · intro s payload signature pkcs1 pss h
    obtain ⟨A, P, Q⟩ := s
    rcases hh : rsaHash A with e | u
    · simp [goRsaVerify, hh] at h
    · rcases Q with _ | pk
      · rcases P with _ | k
        · exact ⟨rfl, rfl⟩
        · exfalso
          simp [goRsaVerify, hh] at h
          exact rsaVerifyDispatch_ne_missing A k.PublicKey payload signature pkcs1 pss h
      · exfalso
        simp [goRsaVerify, hh] at h
        exact rsaVerifyDispatch_ne_missing A pk payload signature pkcs1 pss h
  · intro s k payload signature ev hpub hpriv
    obtain ⟨A, P, Q⟩ := s
    simp only at hpub hpriv
    subst hpub hpriv
    rfl
  · intro s payload signature ev
    obtain ⟨A, P, Q⟩ := s
    constructor
    · intro h
      rcases Q with _ | pk
      · rcases P with _ | k
        · exact ⟨rfl, rfl⟩
        · exfalso
          simp [goEcdsaVerify] at h
          exact ecdsaVerifySized_ne_goMsg A k.PublicKey payload signature ev _ h
      · exfalso
        simp [goEcdsaVerify] at h
        exact ecdsaVerifySized_ne_goMsg A pk payload signature ev _ h
    · rintro ⟨hq, hp⟩
      simp only at hq hp
      subst hq hp
      rfl

/-- Witness for C10 at a concrete input: RSA verifier with only a private
key behaves as one carrying the embedded public key, and the ECDSA verifier
with no keys at all reports the missing-key error. -/
theorem verify_public_key_fallback_witness :
    goRsaVerify ⟨"RS256", some ⟨⟨5⟩⟩, none⟩ [1] [2] (fun _ _ _ => true) (fun _ _ _ => true) =
      goRsaVerify ⟨"RS256", some ⟨⟨5⟩⟩, some ⟨5⟩⟩ [1] [2] (fun _ _ _ => true)
        (fun _ _ _ => true)
    ∧ (goEcdsaVerify ⟨"ES256", none, none⟩ [1] [2] (fun _ _ _ _ => true) =
        Except.error (SignerErr.goMsg
          "cannot proceed with Verify(): no private/public key available") ↔
      (none : Option EcdsaPublicKey) = none ∧ (none : Option EcdsaPrivateKey) = none) :=
  ⟨verify_public_key_fallback.1 ⟨"RS256", some ⟨⟨5⟩⟩, none⟩ ⟨⟨5⟩⟩ [1] [2]
      (fun _ _ _ => true) (fun _ _ _ => true) rfl rfl,
   verify_public_key_fallback.2.2.2 ⟨"ES256", none, none⟩ [1] [2] (fun _ _ _ _ => true)⟩

end Jwx
